import Mathlib

/-!
Verification of the TTL cache and router glue of `server.py`
(a small HTTP gateway that proxies paginated gist listings and caches
formatted responses in memory).

Shallow embedding conventions:
* the Python `dict` `self.cache : Dict[str, Tuple[any, float]]` is embedded
  as a finite set of present keys together with a total valuation function;
  only values at present keys are ever observable, which matches dict
  semantics (keys unique, insertion order irrelevant per the data model);
* wall-clock time (`time.time()`, a real-valued timestamp) and the
  configured `ttl` are embedded as rationals; every operation that reads
  the clock takes the current time `now` as an explicit argument;
* methods that mutate `self` return the new cache state explicitly;
  methods that do not mutate (`get_stats`) return only their result;
* Python `None` returned by `Cache.get` for an absent or expired key is
  embedded as `Option.none`.
-/

/-- State of `Cache` from `server.py`: the backing dict `self.cache`
(present keys + valuation giving `(value, timestamp)`) and `self.ttl`. -/
structure Cache (α : Type) where
  keys : Finset String
  val : String → α × ℚ
  ttl : ℚ

namespace Cache

/-- `Cache.get` (server.py lines 25-34): if the key is present and
`time.time() - timestamp < self.ttl`, return the stored value and leave the
dict alone; if present but stale, delete the entry and return `None`;
if absent return `None`. -/
def get {α : Type} (c : Cache α) (key : String) (now : ℚ) :
    Option α × Cache α :=
  if key ∈ c.keys then
    let value := (c.val key).1
    let timestamp := (c.val key).2
    if now - timestamp < c.ttl then
      (some value, c)
    else
      (none, { c with keys := c.keys.erase key })
  else
    (none, c)

/-- `Cache.set` (server.py lines 36-38): `self.cache[key] = (value, time.time())`,
an unconditional insert-or-overwrite stamped with the current time. -/
def set {α : Type} (c : Cache α) (key : String) (value : α) (now : ℚ) :
    Cache α :=
  { c with keys := insert key c.keys,
           val := Function.update c.val key (value, now) }

/-- `Cache.clear` (server.py lines 40-42): `self.cache.clear()` empties the
dict; the method itself returns `None`. -/
def clear {α : Type} (c : Cache α) : Cache α :=
  { c with keys := ∅ }

/-- `Cache.remove` (server.py lines 44-47): `if key in self.cache: del
self.cache[key]` — delete when present, silently do nothing when absent. -/
def remove {α : Type} (c : Cache α) (key : String) : Cache α :=
  if key ∈ c.keys then { c with keys := c.keys.erase key } else c

/-- The dict returned by `Cache.get_stats`. -/
structure Stats where
  total_entries : ℕ
  valid_entries : ℕ
  expired_entries : ℕ
  ttl_seconds : ℚ
  deriving Repr, DecidableEq

/-- `Cache.get_stats` (server.py lines 49-61): counts, over all stored
entries and without deleting any, those with `current_time - timestamp <
self.ttl`; reports `total_entries = len(self.cache)`, the valid count, and
`expired_entries = len(self.cache) - valid_entries`.  The method performs
no write to `self.cache`, so it is embedded as a pure observer. -/
def get_stats {α : Type} (c : Cache α) (now : ℚ) : Stats :=
  let valid := (c.keys.filter (fun k => now - (c.val k).2 < c.ttl)).card
  { total_entries := c.keys.card,
    valid_entries := valid,
    expired_entries := c.keys.card - valid,
    ttl_seconds := c.ttl }

end Cache

/-- `GistHandler.handle_cache_clear` (server.py lines 280-293): reads
`entries_before = len(gist_cache.cache)`, calls `gist_cache.clear()`, and
reports `entries_removed = entries_before`.  Embedded as the reported
count paired with the post-state. -/
def handle_cache_clear {α : Type} (c : Cache α) : ℕ × Cache α :=
  (c.keys.card, c.clear)

/-- The `cache` sub-dict of the `response_data` dict built in `do_GET`
(server.py lines 185-188): `{'hit': ..., 'ttl_seconds': ...}`. -/
structure CacheInfo where
  hit : Bool
  ttl_seconds : ℚ
  deriving Repr, DecidableEq

/-- The `response_data` dict stored in the cache (server.py lines 168-189):
everything except the `cache` sub-dict (username, pagination, gists,
rate-limit block) is opaque to the caching logic and embedded as `body`. -/
structure ResponseData (β : Type) where
  body : β
  cache : CacheInfo
  deriving Repr, DecidableEq

/-- `cached_data['cache']['hit'] = True` from `send_cached_response`
(server.py line 207). -/
def markHit {β : Type} (v : ResponseData β) : ResponseData β :=
  { v with cache := { v.cache with hit := true } }

/-- The cache-hit path of `do_GET` (server.py lines 154-159) followed by
`send_cached_response` (lines 205-213): look the key up, and on a hit set
the returned object's `cache.hit` field to `True`.  `Cache.get` hands back
a reference to the very tuple element stored in the dict, so that in-place
mutation also changes the stored entry; the aliasing is embedded as an
explicit write-through at the same timestamp. -/
def serve_from_cache {β : Type} (c : Cache (ResponseData β)) (key : String)
    (now : ℚ) : Option (ResponseData β) × Cache (ResponseData β) :=
  let r := c.get key now
  match r.1 with
  | none => (none, r.2)
  | some v =>
      let v1 := markHit v
      (some v1,
       { r.2 with val := Function.update (r.2).val key (v1, ((r.2).val key).2) })

/-- Python truthiness of the value `Cache.get` hands to `do_GET`'s
`if cached_data:` test (server.py line 157): `None` is falsy, any other
stored payload is judged by its own truthiness `tr` (e.g. an empty dict is
falsy). -/
inductive RouteStep where
  | servedFromCache
  | fetchUpstream
  deriving Repr, DecidableEq

/-- The cache-consultation step of `do_GET` (server.py lines 154-159):
`cached_data = gist_cache.get(cache_key)`, then `if cached_data:` serve the
cached value, else fall through to the upstream fetch.  Stored values live
in `Option β` so that a stored Python `None` (`Option.none`) can be told
apart, in the embedding, from a genuinely absent key — the Python code
cannot tell them apart, which is what C9 asserts. -/
def do_GET_cache_check {β : Type} (tr : β → Bool) (c : Cache (Option β))
    (key : String) (now : ℚ) : RouteStep × Cache (Option β) :=
  let r := c.get key now
  (match r.1.join with
   | some v => if tr v then RouteStep.servedFromCache else RouteStep.fetchUpstream
   | none => RouteStep.fetchUpstream, r.2)

/-- Helper: a `get` of a present, still-fresh key returns the stored value
and leaves the state untouched. -/
theorem Cache.get_hit {α : Type} (c : Cache α) (k : String) (now : ℚ)
    (hk : k ∈ c.keys) (h : now - (c.val k).2 < c.ttl) :
    c.get k now = (some (c.val k).1, c) := by
  simp [Cache.get, hk, h]

/-- A concrete cache used to instantiate the theorems below:
one entry `"a" ↦ (7, inserted at t = 0)`, TTL 300 seconds (the reference
deployment's default). -/
def sampleCache : Cache ℕ :=
  { keys := {"a"},
    val := fun k => if k = "a" then (7, 0) else (0, 0),
    ttl := 300 }

/-- Like `sampleCache` but constructed with a TTL of 0 seconds. -/
def zeroTtlCache : Cache ℕ :=
  { keys := {"a"},
    val := fun k => if k = "a" then (7, 0) else (0, 0),
    ttl := 0 }

/-- C1: for every key `k` and value `v`, `set(k, v)` followed by `get(k)`
while the entry's age `now - inserted_at` is strictly below the configured
TTL returns exactly the stored value `v`, and the cache state is left
unchanged by that hit. -/
theorem cache_get_set_roundtrip {α : Type} (c : Cache α) (k : String)
    (v : α) (tset tget : ℚ) (h : tget - tset < c.ttl) :
    ((c.set k v tset).get k tget).1 = some v ∧
    ((c.set k v tset).get k tget).2 = c.set k v tset := by
  have hk : k ∈ (c.set k v tset).keys := Finset.mem_insert_self k c.keys
  have hv : (c.set k v tset).val k = (v, tset) := Function.update_same k _ _
  have httl : (c.set k v tset).ttl = c.ttl := rfl
  simp [Cache.get, hk, hv, httl, h]

/-- Witness for C1 at a concrete input: store 5 under `"k"` at time 0 in
`sampleCache` (TTL 300) and read it back at time 100. -/
theorem cache_get_set_roundtrip_witness :
    (100 : ℚ) - 0 < sampleCache.ttl ∧
    (((sampleCache.set "k" 5 0).get "k" 100).1 = some 5 ∧
     ((sampleCache.set "k" 5 0).get "k" 100).2 = sampleCache.set "k" 5 0) :=
  ⟨by norm_num [sampleCache],
   cache_get_set_roundtrip sampleCache "k" 5 0 100 (by norm_num [sampleCache])⟩

/-- C2: for every key whose entry has age `now - inserted_at ≥ ttl` at the
moment of the call, `get` returns absent and physically deletes the entry:
afterwards the key is gone from the backing dict and any subsequent
`stats()` reports one fewer `total_entries` — a side-effecting read. -/
theorem cache_get_expired_removes {α : Type} (c : Cache α) (k : String)
    (now : ℚ) (hk : k ∈ c.keys) (hexp : c.ttl ≤ now - (c.val k).2) :
    (c.get k now).1 = none ∧
    k ∉ ((c.get k now).2).keys ∧
    ∀ later, (((c.get k now).2).get_stats later).total_entries
      = c.keys.card - 1 := by
  have hlt : ¬ (now - (c.val k).2 < c.ttl) := not_lt.mpr hexp
  refine ⟨?_, ?_, ?_⟩
  · simp [Cache.get, hk, hlt]
  · simp [Cache.get, hk, hlt, Finset.not_mem_erase]
  · intro later
    simp [Cache.get, hk, hlt, Cache.get_stats, Finset.card_erase_of_mem hk]

/-- Witness for C2 at a concrete input: in `sampleCache` (TTL 300, entry
`"a"` inserted at 0) a `get("a")` at time 400 expires the entry. -/
theorem cache_get_expired_removes_witness :
    ("a" ∈ sampleCache.keys ∧
     sampleCache.ttl ≤ (400 : ℚ) - (sampleCache.val "a").2) ∧
    ((sampleCache.get "a" 400).1 = none ∧
     "a" ∉ ((sampleCache.get "a" 400).2).keys ∧
     ∀ later, (((sampleCache.get "a" 400).2).get_stats later).total_entries
       = sampleCache.keys.card - 1) :=
  ⟨⟨by decide, by norm_num [sampleCache]⟩,
   cache_get_expired_removes sampleCache "a" 400 (by decide)
     (by norm_num [sampleCache])⟩

/-- Helper: the accounting facts behind `get_stats`, shared by the
statistics and nonpositive-TTL theorems. -/
theorem stats_expired_count {α : Type} (c : Cache α) (now : ℚ)
    (k : String) (hk : k ∈ c.keys) (hexp : c.ttl ≤ now - (c.val k).2) :
    (c.get_stats now).total_entries = c.keys.card ∧
    (c.get_stats now).valid_entries + (c.get_stats now).expired_entries
      = (c.get_stats now).total_entries ∧
    (c.get_stats now).expired_entries
      = (c.keys.filter (fun j => ¬ (now - (c.val j).2 < c.ttl))).card ∧
    k ∈ c.keys.filter (fun j => ¬ (now - (c.val j).2 < c.ttl)) ∧
    k ∉ c.keys.filter (fun j => now - (c.val j).2 < c.ttl) := by
  have hsplit :
      (c.keys.filter (fun j => now - (c.val j).2 < c.ttl)).card
        + (c.keys.filter (fun j => ¬ (now - (c.val j).2 < c.ttl))).card
        = c.keys.card :=
    Finset.filter_card_add_filter_neg_card_eq_card _
  have hle : (c.keys.filter (fun j => now - (c.val j).2 < c.ttl)).card
      ≤ c.keys.card := Finset.card_filter_le _ _
  have hlt : ¬ (now - (c.val k).2 < c.ttl) := not_lt.mpr hexp
  refine ⟨rfl, ?_, ?_, ?_, ?_⟩
  · simp only [Cache.get_stats]
    omega
  · simp only [Cache.get_stats]
    omega
  · exact Finset.mem_filter.mpr ⟨hk, hlt⟩
  · intro hmem
    exact hlt (Finset.mem_filter.mp hmem).2

/-- C3: `stats()` is a pure observer — the embedding of `get_stats` returns
only a `Stats` record because the method body never writes `self.cache`, so
the cache mapping is unchanged by construction.  For every cache state and
instant, its report satisfies: `total_entries` is the stored count,
`valid_entries + expired_entries = total_entries`, `expired_entries` is
exactly the number of stored entries with age `≥ ttl`, and any
expired-but-unread key `k` is counted among the expired entries and not
among the valid ones. -/
theorem cache_stats_accounting {α : Type} (c : Cache α) (now : ℚ) :
    (c.get_stats now).total_entries = c.keys.card ∧
    (c.get_stats now).valid_entries + (c.get_stats now).expired_entries
      = (c.get_stats now).total_entries ∧
    (c.get_stats now).expired_entries
      = (c.keys.filter (fun j => ¬ (now - (c.val j).2 < c.ttl))).card ∧
    ∀ k ∈ c.keys, c.ttl ≤ now - (c.val k).2 →
      k ∈ c.keys.filter (fun j => ¬ (now - (c.val j).2 < c.ttl)) ∧
      k ∉ c.keys.filter (fun j => now - (c.val j).2 < c.ttl) := by
  have hsplit :
      (c.keys.filter (fun j => now - (c.val j).2 < c.ttl)).card
        + (c.keys.filter (fun j => ¬ (now - (c.val j).2 < c.ttl))).card
        = c.keys.card :=
    Finset.filter_card_add_filter_neg_card_eq_card _
  have hle : (c.keys.filter (fun j => now - (c.val j).2 < c.ttl)).card
      ≤ c.keys.card := Finset.card_filter_le _ _
  refine ⟨rfl, ?_, ?_, ?_⟩
  · simp only [Cache.get_stats]
    omega
  · simp only [Cache.get_stats]
    omega
  · intro k hk hexp
    have hlt : ¬ (now - (c.val k).2 < c.ttl) := not_lt.mpr hexp
    exact ⟨Finset.mem_filter.mpr ⟨hk, hlt⟩,
      fun hmem => hlt (Finset.mem_filter.mp hmem).2⟩

/-- Witness for C3 at a concrete input: `sampleCache` at time 400, where
entry `"a"` (inserted at 0, TTL 300) is expired but unread; the inner
hypotheses of the per-entry part are discharged at `"a"`. -/
theorem cache_stats_accounting_witness :
    ((sampleCache.get_stats 400).total_entries = sampleCache.keys.card ∧
     (sampleCache.get_stats 400).valid_entries
       + (sampleCache.get_stats 400).expired_entries
       = (sampleCache.get_stats 400).total_entries ∧
     (sampleCache.get_stats 400).expired_entries
       = (sampleCache.keys.filter
           (fun j => ¬ ((400 : ℚ) - (sampleCache.val j).2 < sampleCache.ttl))).card) ∧
    ("a" ∈ sampleCache.keys ∧
     sampleCache.ttl ≤ (400 : ℚ) - (sampleCache.val "a").2) ∧
    ("a" ∈ sampleCache.keys.filter
       (fun j => ¬ ((400 : ℚ) - (sampleCache.val j).2 < sampleCache.ttl)) ∧
     "a" ∉ sampleCache.keys.filter
       (fun j => (400 : ℚ) - (sampleCache.val j).2 < sampleCache.ttl)) :=
  ⟨⟨(cache_stats_accounting sampleCache 400).1,
    (cache_stats_accounting sampleCache 400).2.1,
    (cache_stats_accounting sampleCache 400).2.2.1⟩,
   ⟨by decide, by norm_num [sampleCache]⟩,
   (cache_stats_accounting sampleCache 400).2.2.2 "a" (by decide)
     (by norm_num [sampleCache])⟩

/-- C4: the cache-clear operation (`handle_cache_clear`, which reads the
prior entry count, calls `Cache.clear`, and reports that count as
`entries_removed`) removes every entry and reports exactly the number of
entries stored before the call; a `stats()` taken afterwards reports
`total_entries = 0`. -/
theorem cache_clear_count_and_empty {α : Type} (c : Cache α) (now : ℚ) :
    (handle_cache_clear c).1 = c.keys.card ∧
    ((handle_cache_clear c).2).keys = ∅ ∧
    (((handle_cache_clear c).2).get_stats now).total_entries = 0 := by
  refine ⟨rfl, rfl, ?_⟩
  simp [handle_cache_clear, Cache.clear, Cache.get_stats]

/-- C6: `remove(k)` on an absent key is a safe no-op that leaves the cache
state exactly unchanged; on a present key it deletes exactly that entry
(that key is erased, every other key's presence and every stored value and
the TTL are untouched). -/
theorem cache_remove_noop_or_exact {α : Type} (c : Cache α) (k : String) :
    (k ∉ c.keys → c.remove k = c) ∧
    (k ∈ c.keys →
      (c.remove k).keys = c.keys.erase k ∧
      k ∉ (c.remove k).keys ∧
      (∀ j, j ≠ k → (j ∈ (c.remove k).keys ↔ j ∈ c.keys)) ∧
      (c.remove k).val = c.val ∧
      (c.remove k).ttl = c.ttl) := by
  constructor
  · intro h
    simp [Cache.remove, h]
  · intro h
    refine ⟨by simp [Cache.remove, h], by simp [Cache.remove, h, Finset.not_mem_erase], ?_, by simp [Cache.remove, h], by simp [Cache.remove, h]⟩
    intro j hj
    simp [Cache.remove, h, Finset.mem_erase, hj]

/-- Witness for C6 at concrete inputs: removing the absent key `"b"` from
`sampleCache` is the identity, and removing the present key `"a"` erases
it. -/
theorem cache_remove_noop_or_exact_witness :
    (sampleCache.remove "b" = sampleCache) ∧
    (sampleCache.remove "a").keys = sampleCache.keys.erase "a" :=
  ⟨(cache_remove_noop_or_exact sampleCache "b").1 (by decide),
   ((cache_remove_noop_or_exact sampleCache "a").2 (by decide)).1⟩

/-- C5: with a nonpositive TTL every entry is expired on the next `get` of
its key taken at or after its insertion time — the `get` returns absent and
deletes it — while before such a `get`, `remove` or `clear` the entry is
still visible to `stats()`: it is counted in `total_entries` (the key is
still stored) and in `expired_entries`, whose value is the count of the
expired keys. -/
theorem cache_nonpositive_ttl_expiry {α : Type} (c : Cache α)
    (httl : c.ttl ≤ 0) (k : String) (hk : k ∈ c.keys) (now : ℚ)
    (hnow : (c.val k).2 ≤ now) :
    (c.get k now).1 = none ∧
    k ∉ ((c.get k now).2).keys ∧
    (c.get_stats now).total_entries = c.keys.card ∧
    k ∈ c.keys.filter (fun j => ¬ (now - (c.val j).2 < c.ttl)) ∧
    (c.get_stats now).expired_entries
      = (c.keys.filter (fun j => ¬ (now - (c.val j).2 < c.ttl))).card := by
  have hexp : c.ttl ≤ now - (c.val k).2 := by linarith
  have hlt : ¬ (now - (c.val k).2 < c.ttl) := not_lt.mpr hexp
  obtain ⟨h1, h2, h3⟩ := stats_expired_count c now k hk hexp
  refine ⟨by simp [Cache.get, hk, hlt], by simp [Cache.get, hk, hlt, Finset.not_mem_erase], h1, h3.2.1, h3.1⟩

/-- Witness for C5 at a concrete input: `zeroTtlCache` (TTL 0, entry `"a"`
inserted at 0) read at time 0. -/
theorem cache_nonpositive_ttl_expiry_witness :
    (zeroTtlCache.ttl ≤ 0 ∧ "a" ∈ zeroTtlCache.keys ∧
     (zeroTtlCache.val "a").2 ≤ (0 : ℚ)) ∧
    ((zeroTtlCache.get "a" 0).1 = none ∧
     "a" ∉ ((zeroTtlCache.get "a" 0).2).keys ∧
     (zeroTtlCache.get_stats 0).total_entries = zeroTtlCache.keys.card ∧
     "a" ∈ zeroTtlCache.keys.filter
       (fun j => ¬ ((0 : ℚ) - (zeroTtlCache.val j).2 < zeroTtlCache.ttl)) ∧
     (zeroTtlCache.get_stats 0).expired_entries
       = (zeroTtlCache.keys.filter
           (fun j => ¬ ((0 : ℚ) - (zeroTtlCache.val j).2 < zeroTtlCache.ttl))).card) :=
  ⟨⟨by norm_num [zeroTtlCache], by decide, by norm_num [zeroTtlCache]⟩,
   cache_nonpositive_ttl_expiry zeroTtlCache (by norm_num [zeroTtlCache]) "a"
     (by decide) 0 (by norm_num [zeroTtlCache])⟩

/-- A concrete response cache for instantiating C8: one entry `"a"` holding
a response whose `cache.hit` flag is still `False`, inserted at time 0,
TTL 300. -/
def hitCache : Cache (ResponseData ℕ) :=
  { keys := {"a"},
    val := fun _ => ({ body := 3, cache := { hit := false, ttl_seconds := 300 } }, 0),
    ttl := 300 }

/-- A concrete cache of optional payloads for instantiating C9; it is
empty, so every key is absent. -/
def emptyOptCache : Cache (Option ℕ) :=
  { keys := ∅, val := fun _ => (none, 0), ttl := 300 }

/-- C8: `get` returns a shared reference, not a copy — serving a cache hit
sets the returned object's `cache.hit` field to `True`, and because that
object is the one physically stored, any subsequent `get` of the same key
within the TTL window returns a value whose `cache.hit` field is `True`. -/
theorem cache_hit_flag_persists {β : Type} (c : Cache (ResponseData β))
    (key : String) (now now2 : ℚ) (hk : key ∈ c.keys)
    (hnow : now - (c.val key).2 < c.ttl)
    (hnow2 : now2 - (c.val key).2 < c.ttl) :
    (serve_from_cache c key now).1 = some (markHit (c.val key).1) ∧
    (((serve_from_cache c key now).2).get key now2).1
      = some (markHit (c.val key).1) ∧
    (markHit (c.val key).1).cache.hit = true := by
  have hget : c.get key now = (some (c.val key).1, c) :=
    Cache.get_hit c key now hk hnow
  have h2 : (serve_from_cache c key now).2
      = { c with val := Function.update c.val key ((markHit (c.val key).1, (c.val key).2)) } := by
    simp [serve_from_cache, hget]
  refine ⟨?_, ?_, rfl⟩
  · simp [serve_from_cache, hget]
  · rw [h2]
    simp [Cache.get, hk, hnow2]

/-- Witness for C8 at a concrete input: serve `"a"` from `hitCache` at time
100 and read it again at time 200. -/
theorem cache_hit_flag_persists_witness :
    ("a" ∈ hitCache.keys ∧
     (100 : ℚ) - (hitCache.val "a").2 < hitCache.ttl ∧
     (200 : ℚ) - (hitCache.val "a").2 < hitCache.ttl) ∧
    ((serve_from_cache hitCache "a" 100).1
       = some (markHit (hitCache.val "a").1) ∧
     (((serve_from_cache hitCache "a" 100).2).get "a" 200).1
       = some (markHit (hitCache.val "a").1) ∧
     (markHit (hitCache.val "a").1).cache.hit = true) :=
  ⟨⟨by decide, by norm_num [hitCache], by norm_num [hitCache]⟩,
   cache_hit_flag_persists hitCache "a" 100 200 (by decide)
     (by norm_num [hitCache]) (by norm_num [hitCache])⟩

/-- C9: at the cache's public interface a stored `None` is
indistinguishable from absence — after `set(k, None)`, a `get(k)` within
the TTL window returns `None`, exactly the result of `get` on a never-set
key — and the router's truthiness test sends any stored falsy value
(`None`, or a payload `v` with `tr v = false` such as an empty dict) down
the upstream-fetch path, i.e. treats it as a cache miss. -/
theorem cache_stored_none_is_miss {β : Type} (tr : β → Bool)
    (c c0 : Cache (Option β)) (k : String) (t now : ℚ)
    (hwin : now - t < c.ttl) (habs : k ∉ c0.keys) :
    (((c.set k none t).get k now).1).join = none ∧
    ((c0.get k now).1).join = (none : Option β) ∧
    (do_GET_cache_check tr (c.set k none t) k now).1 = RouteStep.fetchUpstream ∧
    (∀ v, tr v = false →
      (do_GET_cache_check tr (c.set k (some v) t) k now).1
        = RouteStep.fetchUpstream) := by
  have hk : k ∈ (c.set k (none : Option β) t).keys := Finset.mem_insert_self k c.keys
  have hv : (c.set k (none : Option β) t).val k = (none, t) :=
    Function.update_same k _ _
  have httl : (c.set k (none : Option β) t).ttl = c.ttl := rfl
  refine ⟨?_, ?_, ?_, ?_⟩
  · simp [Cache.get, hk, hv, httl, hwin]
  · simp [Cache.get, habs]
  · simp [do_GET_cache_check, Cache.get, hk, hv, httl, hwin]
  · intro v hfalsy
    have hk2 : k ∈ (c.set k (some v) t).keys := Finset.mem_insert_self k c.keys
    have hv2 : (c.set k (some v) t).val k = (some v, t) :=
      Function.update_same k _ _
    have httl2 : (c.set k (some v) t).ttl = c.ttl := rfl
    simp [do_GET_cache_check, Cache.get, hk2, hv2, httl2, hwin, hfalsy]

/-- Witness for C9 at a concrete input: `emptyOptCache` (TTL 300), key
`"k"`, store at time 0, read at time 100, truthiness `n ≠ 0`. -/
theorem cache_stored_none_is_miss_witness :
    ((100 : ℚ) - 0 < emptyOptCache.ttl ∧ "k" ∉ emptyOptCache.keys) ∧
    ((((emptyOptCache.set "k" none 0).get "k" 100).1).join = none ∧
     ((emptyOptCache.get "k" 100).1).join = (none : Option ℕ) ∧
     (do_GET_cache_check (fun n => decide (n ≠ 0))
        (emptyOptCache.set "k" none 0) "k" 100).1 = RouteStep.fetchUpstream ∧
     (∀ v, (fun n => decide (n ≠ 0)) v = false →
       (do_GET_cache_check (fun n => decide (n ≠ 0))
          (emptyOptCache.set "k" (some v) 0) "k" 100).1
         = RouteStep.fetchUpstream)) :=
  ⟨⟨by norm_num [emptyOptCache], by decide⟩,
   cache_stored_none_is_miss (fun n => decide (n ≠ 0)) emptyOptCache
     emptyOptCache "k" 0 100 (by norm_num [emptyOptCache]) (by decide)⟩

/-- Decimal digit characters of `n`, most significant first — the text
Python's f-string interpolation produces for a nonnegative int.  The first
argument is fuel bounding the recursion depth (`fuel ≥ n` suffices). -/
def natCharsAux : ℕ → ℕ → List Char
  | 0, _ => []
  | f + 1, n =>
    if n = 0 then [] else natCharsAux f (n / 10) ++ [Nat.digitChar (n % 10)]

/-- Decimal rendering of a natural number, e.g. `natChars 30 = ['3', '0']`. -/
def natChars (n : ℕ) : List Char :=
  if n = 0 then ['0'] else natCharsAux n n

/-- Decimal rendering as a string. -/
def natStr (n : ℕ) : String :=
  String.mk (natChars n)

/-- `cache_key = f"{username}:page{page}:per_page{per_page}"` built by
`do_GET` (server.py line 152) from the path's username and the validated
pagination parameters. -/
def cache_key (username : String) (page : ℕ) (pp : ℕ) : String :=
  username ++ ":page" ++ natStr page ++ ":per_page" ++ natStr pp

/-- The characters of `":page"`. -/
def pageTag : List Char := [':', 'p', 'a', 'g', 'e']

/-- The characters of `":per_page"`. -/
def perPageTag : List Char := [':', 'p', 'e', 'r', '_', 'p', 'a', 'g', 'e']

/-- `cache_key` at the level of character lists. -/
def keyChars (u : List Char) (page : ℕ) (pp : ℕ) : List Char :=
  u ++ pageTag ++ natChars page ++ perPageTag ++ natChars pp

theorem cache_key_data (u : String) (p q : ℕ) :
    (cache_key u p q).data = keyChars u.data p q := rfl

theorem natCharsAux_eq (fuel : ℕ) : ∀ n : ℕ, n ≤ fuel →
    natCharsAux fuel n = ((Nat.digits 10 n).map Nat.digitChar).reverse := by
  induction fuel with
  | zero =>
    intro n hn
    have h0 : n = 0 := Nat.le_zero.mp hn
    subst h0
    simp [natCharsAux]
  | succ f ih =>
    intro n hn
    by_cases h : n = 0
    · subst h
      simp [natCharsAux]
    · have hpos : 0 < n := Nat.pos_of_ne_zero h
      have hdiv : n / 10 < n := Nat.div_lt_self hpos (by norm_num)
      have hle : n / 10 ≤ f := by omega
      rw [natCharsAux, if_neg h, ih _ hle,
        Nat.digits_def' (by norm_num : (1 : ℕ) < 10) hpos]
      simp

theorem digitChar_isDigit {d : ℕ} (hd : d < 10) :
    (Nat.digitChar d).isDigit = true := by
  interval_cases d <;> decide

theorem digitChar_inj_of_lt {a b : ℕ} (ha : a < 10) (hb : b < 10) :
    Nat.digitChar a = Nat.digitChar b → a = b := by
  interval_cases a <;> interval_cases b <;> decide

theorem natChars_all_digits (n : ℕ) : ∀ c ∈ natChars n, c.isDigit = true := by
  intro c hc
  by_cases h : n = 0
  · subst h
    simp [natChars] at hc
    subst hc
    decide
  · rw [natChars, if_neg h, natCharsAux_eq n n le_rfl] at hc
    rw [List.mem_reverse] at hc
    obtain ⟨d, hd, rfl⟩ := List.mem_map.mp hc
    exact digitChar_isDigit (Nat.digits_lt_base (by norm_num) hd)

theorem natChars_ne_singleton_zero {n : ℕ} (hn : n ≠ 0) :
    natChars n ≠ ['0'] := by
  rw [natChars, if_neg hn, natCharsAux_eq n n le_rfl]
  intro heq
  have hmap : (Nat.digits 10 n).map Nat.digitChar = ['0'] := by
    have h2 := congrArg List.reverse heq
    simpa using h2
  rcases hd : Nat.digits 10 n with _ | ⟨d, l⟩
  · rw [hd] at hmap
    simp at hmap
  · rw [hd] at hmap
    simp only [List.map_cons, List.cons.injEq] at hmap
    have hl : l = [] := List.map_eq_nil_iff.mp hmap.2
    have hdlt : d < 10 :=
      Nat.digits_lt_base (by norm_num) (hd ▸ List.mem_cons_self d l)
    have hd0 : d = 0 := by
      apply digitChar_inj_of_lt hdlt (by norm_num)
      rw [hmap.1]
      rfl
    have hofd := Nat.ofDigits_digits 10 n
    rw [hd, hl, hd0] at hofd
    simp [Nat.ofDigits] at hofd
    exact hn hofd.symm

theorem map_digitChar_inj : ∀ (l1 l2 : List ℕ), (∀ d ∈ l1, d < 10) →
    (∀ d ∈ l2, d < 10) → l1.map Nat.digitChar = l2.map Nat.digitChar →
    l1 = l2
  | [], [], _, _, _ => rfl
  | [], _ :: _, _, _, h => by simp at h
  | _ :: _, [], _, _, h => by simp at h
  | a :: l1, b :: l2, h1, h2, h => by
    simp only [List.map_cons, List.cons.injEq] at h
    have ha := h1 a (List.mem_cons_self a l1)
    have hb := h2 b (List.mem_cons_self b l2)
    have hab := digitChar_inj_of_lt ha hb h.1
    subst hab
    have htail := map_digitChar_inj l1 l2
      (fun d hd => h1 d (List.mem_cons_of_mem _ hd))
      (fun d hd => h2 d (List.mem_cons_of_mem _ hd)) h.2
    rw [htail]

theorem natChars_inj {m n : ℕ} (h : natChars m = natChars n) : m = n := by
  by_cases hm : m = 0 <;> by_cases hn : n = 0
  · rw [hm, hn]
  · exfalso
    rw [hm] at h
    exact natChars_ne_singleton_zero hn h.symm
  · exfalso
    rw [hn] at h
    exact natChars_ne_singleton_zero hm h
  · rw [natChars, if_neg hm, natCharsAux_eq m m le_rfl,
      natChars, if_neg hn, natCharsAux_eq n n le_rfl] at h
    have h2 : (Nat.digits 10 m).map Nat.digitChar
        = (Nat.digits 10 n).map Nat.digitChar := by
      have h3 := congrArg List.reverse h
      simpa using h3
    have h4 : Nat.digits 10 m = Nat.digits 10 n :=
      map_digitChar_inj _ _
        (fun d hd => Nat.digits_lt_base (by norm_num) hd)
        (fun d hd => Nat.digits_lt_base (by norm_num) hd) h2
    exact Nat.digits.injective 10 h4

theorem takeWhile_digits_append (p : Char → Bool) :
    ∀ (d : List Char) (e : Char) (r : List Char),
    (∀ c ∈ d, p c = true) → p e = false →
    (d ++ e :: r).takeWhile p = d ∧ (d ++ e :: r).dropWhile p = e :: r := by
  intro d
  induction d with
  | nil =>
    intro e r _ he
    simp [List.takeWhile_cons, List.dropWhile_cons, he]
  | cons a d ih =>
    intro e r hall he
    have ha : p a = true := hall a (List.mem_cons_self a d)
    have hrest := ih e r (fun c hc => hall c (List.mem_cons_of_mem a hc)) he
    simp [List.takeWhile_cons, List.dropWhile_cons, ha, hrest.1, hrest.2]

theorem digit_block_inj {d1 d2 t1 t2 : List Char}
    (hd1 : ∀ c ∈ d1, c.isDigit = true) (hd2 : ∀ c ∈ d2, c.isDigit = true)
    (h : d1 ++ 'e' :: t1 = d2 ++ 'e' :: t2) : d1 = d2 ∧ t1 = t2 := by
  have he : ('e').isDigit = false := by decide
  have ht1 := takeWhile_digits_append Char.isDigit d1 'e' t1 hd1 he
  have ht2 := takeWhile_digits_append Char.isDigit d2 'e' t2 hd2 he
  constructor
  · rw [← ht1.1, ← ht2.1, h]
  · have h2 : 'e' :: t1 = 'e' :: t2 := by rw [← ht1.2, ← ht2.2, h]
    simpa using h2

theorem pageTag_rev : pageTag.reverse = ['e', 'g', 'a', 'p', ':'] := rfl

theorem perPageTag_rev :
    perPageTag.reverse = ['e', 'g', 'a', 'p', '_', 'r', 'e', 'p', ':'] := rfl

/-- C7: the router's cache-key derivation
`f"{username}:page{page}:per_page{per_page}"` is injective on validated
request triples — two requests with identical `(identity, page, per_page)`
map to the same key, and two triples differing in any of the three
components (with the pagination values in the validated range `1..100`)
map to different keys. -/
theorem cache_key_injective (u1 u2 : String) (p1 p2 q1 q2 : ℕ)
    (hp1 : 1 ≤ p1) (hp1b : p1 ≤ 100) (hp2 : 1 ≤ p2) (hp2b : p2 ≤ 100)
    (hq1 : 1 ≤ q1) (hq1b : q1 ≤ 100) (hq2 : 1 ≤ q2) (hq2b : q2 ≤ 100) :
    cache_key u1 p1 q1 = cache_key u2 p2 q2 ↔
      (u1 = u2 ∧ p1 = p2 ∧ q1 = q2) := by
  constructor
  · intro h
    have hd' : keyChars u1.data p1 q1 = keyChars u2.data p2 q2 := by
      rw [← cache_key_data, ← cache_key_data, h]
    have hrev := congrArg List.reverse hd'
    rw [keyChars, keyChars] at hrev
    simp only [List.reverse_append, pageTag_rev, perPageTag_rev,
      List.append_assoc, List.cons_append, List.nil_append] at hrev
    have hdq1 : ∀ c ∈ (natChars q1).reverse, c.isDigit = true :=
      fun c hc => natChars_all_digits q1 c (List.mem_reverse.mp hc)
    have hdq2 : ∀ c ∈ (natChars q2).reverse, c.isDigit = true :=
      fun c hc => natChars_all_digits q2 c (List.mem_reverse.mp hc)
    obtain ⟨hq, hrest⟩ := digit_block_inj hdq1 hdq2 hrev
    have hqq : q1 = q2 := natChars_inj (List.reverse_injective hq)
    simp only [List.cons.injEq, eq_self_iff_true, true_and] at hrest
    have hdp1 : ∀ c ∈ (natChars p1).reverse, c.isDigit = true :=
      fun c hc => natChars_all_digits p1 c (List.mem_reverse.mp hc)
    have hdp2 : ∀ c ∈ (natChars p2).reverse, c.isDigit = true :=
      fun c hc => natChars_all_digits p2 c (List.mem_reverse.mp hc)
    obtain ⟨hp, hrest2⟩ := digit_block_inj hdp1 hdp2 hrest
    have hpp : p1 = p2 := natChars_inj (List.reverse_injective hp)
    simp only [List.cons.injEq, eq_self_iff_true, true_and] at hrest2
    have huu : u1 = u2 := String.ext (List.reverse_injective hrest2)
    exact ⟨huu, hpp, hqq⟩
  · rintro ⟨rfl, rfl, rfl⟩
    rfl

/-- Witness for C7 at concrete inputs: the validated triples
`("alice", 2, 30)` and `("bob", 2, 30)`. -/
theorem cache_key_injective_witness :
    ((1 : ℕ) ≤ 2 ∧ (2 : ℕ) ≤ 100 ∧ (1 : ℕ) ≤ 30 ∧ (30 : ℕ) ≤ 100) ∧
    (cache_key "alice" 2 30 = cache_key "bob" 2 30 ↔
      ("alice" = "bob" ∧ (2 : ℕ) = 2 ∧ (30 : ℕ) = 30)) :=
  ⟨⟨by norm_num, by norm_num, by norm_num, by norm_num⟩,
   cache_key_injective "alice" "bob" 2 2 30 30 (by norm_num) (by norm_num)
     (by norm_num) (by norm_num) (by norm_num) (by norm_num) (by norm_num)
     (by norm_num)⟩
